import Mathlib

/-!
Shallow embedding of the gosync metadata layer: the SQLite-backed store
(pkg/db/store/sqlite.go over the models in pkg/db/models), the migration
runner (pkg/db/migrations/migrations.go), and the backend-registry /
virtual-path-resolver component, which has no compiled implementation in the
repository and is modelled from the specification (with the reference code in
docs/02 as a guide).

The store state is the content of the SQLite tables. gorm soft deletion is
embedded faithfully: each row carries `deletedAt : Option Nat` (`none` is an
active row, mirroring a NULL deleted_at), deletes are updates that stamp it,
and queries on a model filter on `deletedAt.isNone` exactly where gorm adds
the `deleted_at IS NULL` condition (only for the primary model of a query,
not for joined tables). CreatedAt/UpdatedAt columns are never used in any
query condition and are omitted from the row types.
-/

namespace GoSync

/-- Errors of the embedded operations: `notFound` stands for
gorm.ErrRecordNotFound, `invalidPath` for the rejection of an illegal backend
identifier at registration, `uniqueViolation` for a violated SQL primary-key
or unique-index constraint. -/
inductive GsErr where
  | notFound
  | invalidPath
  | uniqueViolation
deriving Repr, DecidableEq

/-- Row of the backends table (models/backend.go). `id` is the text primary
key; the primary-key constraint spans soft-deleted rows. -/
structure Backend where
  id : String
  name : String
  endpoint : String
  region : String
  bucket : String
  useSSL : Bool
  accessKey : String
  secretKey : String
  deletedAt : Option Nat
deriving Repr, DecidableEq

/-- Row of the files table (models/filter.go, type File). `id` is the
auto-increment integer primary key. BackendID and Path share the composite
index idx_backend_path, which is declared with `index:` (non-unique), not
`uniqueIndex:`. -/
structure File where
  id : Nat
  backendId : String
  path : String
  size : Int
  md5Hash : String
  sha256Hash : String
  etag : String
  modifiedAt : Nat
  deletedAt : Option Nat
deriving Repr, DecidableEq

/-- Row of the tags table (models/tag.go). FileID, Key and Value each carry a
plain (non-unique) single-column index; there is no uniqueness constraint on
the (FileID, Key, Value) triple. -/
structure Tag where
  id : Nat
  fileId : Nat
  key : String
  value : String
  deletedAt : Option Nat
deriving Repr, DecidableEq

/-- Row of the filters table (models/filter.go, type Filter). VirtualPath has
a unique index (spanning soft-deleted rows). -/
structure Filter where
  id : Nat
  virtualPath : String
  name : String
  queryExpression : String
  description : String
  deletedAt : Option Nat
deriving Repr, DecidableEq

/-- State of the metadata store: the four tables the claims touch, plus the
next auto-increment key of each integer-keyed table (SQLite starts at 1). -/
structure StoreState where
  backends : List Backend
  files : List File
  tags : List Tag
  filters : List Filter
  nextFileId : Nat
  nextTagId : Nat
  nextFilterId : Nat
deriving Repr, DecidableEq

def Backend.active (b : Backend) : Bool := b.deletedAt.isNone

def File.active (f : File) : Bool := f.deletedAt.isNone

def Tag.active (t : Tag) : Bool := t.deletedAt.isNone

def Filter.active (f : Filter) : Bool := f.deletedAt.isNone

/-- ASCII case folding, as applied by SQLite's default LIKE comparison (which
is case-insensitive for the ASCII range). -/
def asciiFold (c : Char) : Char :=
  if 'A' ≤ c ∧ c ≤ 'Z' then Char.ofNat (c.toNat + 32) else c

/-- SQLite LIKE matching over character lists, by recursion on the pattern:
a percent sign matches any sequence (some suffix of the text continues the
match), an underscore matches any single character, and any other pattern
character compares equal after ASCII case folding. -/
def likeMatchL : List Char → List Char → Bool
  | [], ts => ts.isEmpty
  | '%' :: ps, ts => ts.tails.any (fun suffix => likeMatchL ps suffix)
  | '_' :: ps, ts =>
    match ts with
    | [] => false
    | _ :: ts => likeMatchL ps ts
  | p :: ps, ts =>
    match ts with
    | [] => false
    | t :: ts => (asciiFold p == asciiFold t) && likeMatchL ps ts

/-- LIKE on strings: `likeMatch pattern text`. -/
def likeMatch (pat text : String) : Bool := likeMatchL pat.data text.data

/-! ### Store operations (SQLiteStore, pkg/db/store/sqlite.go) -/

/-- SQLiteStore.CreateBackend: a plain INSERT. The only constraint on the
backends table is the text primary key, so the insert fails exactly when a
row (active or soft-deleted) with the same id already exists. -/
def createBackend (s : StoreState) (b : Backend) : Except GsErr StoreState :=
  if s.backends.any (fun r => r.id == b.id) then .error .uniqueViolation
  else .ok { s with backends := s.backends ++ [{ b with deletedAt := none }] }

/-- SQLiteStore.GetBackend: `WHERE id = ?` plus gorm's soft-delete condition,
then First; gorm.ErrRecordNotFound when no active row matches. -/
def getBackend (s : StoreState) (id : String) : Except GsErr Backend :=
  match s.backends.find? (fun b => b.active && b.id == id) with
  | some b => .ok b
  | none => .error .notFound

/-- SQLiteStore.DeleteBackend: gorm soft delete, i.e. UPDATE backends SET
deleted_at = now WHERE id = ? AND deleted_at IS NULL. It touches no other
table: the OnDelete:CASCADE declared on the Files relationship is a physical
foreign-key action that only fires on a hard DELETE, never on this UPDATE.
gorm reports no error when zero rows match. -/
def deleteBackend (s : StoreState) (now : Nat) (id : String) : StoreState :=
  { s with backends := s.backends.map (fun b =>
      if b.active && b.id == id then { b with deletedAt := some now } else b) }

/-- SQLiteStore.CreateFile: a plain INSERT with auto-assigned integer primary
key. idx_backend_path is a non-unique index and SQLite does not enforce the
backend foreign key without a foreign_keys pragma, so the insert always
succeeds. -/
def createFile (s : StoreState) (backendId path : String) (size : Int)
    (md5 sha256 etag : String) (modifiedAt : Nat) : StoreState :=
  { s with
    files := s.files ++
      [⟨s.nextFileId, backendId, path, size, md5, sha256, etag, modifiedAt, none⟩],
    nextFileId := s.nextFileId + 1 }

/-- SQLiteStore.GetFile: `WHERE backend_id = ? AND path = ?` plus the
soft-delete condition, then First. -/
def getFile (s : StoreState) (backendId path : String) : Except GsErr File :=
  match s.files.find? (fun f => f.active && f.backendId == backendId && f.path == path) with
  | some f => .ok f
  | none => .error .notFound

/-- Strict lexicographic comparison of character lists by code point, which
coincides with SQLite's BINARY collation on the UTF-8 bytes (UTF-8 is
order-preserving). -/
def pathLt : List Char → List Char → Bool
  | [], [] => false
  | [], _ :: _ => true
  | _ :: _, [] => false
  | c :: cs, d :: ds => if c < d then true else if d < c then false else pathLt cs ds

/-- Stable insertion of a file into a path-sorted list: the file goes after
every strictly smaller path and before every equal or larger path
(preserving rowid order among equal paths). -/
def insertByPath (f : File) : List File → List File
  | [] => [f]
  | g :: gs =>
    if pathLt g.path.data f.path.data then g :: insertByPath f gs else f :: g :: gs

/-- Stable sort of file rows by path ascending under BINARY collation;
stability keeps equal paths in their table (rowid) order. -/
def sortByPath : List File → List File
  | [] => []
  | f :: fs => insertByPath f (sortByPath fs)

/-- SQLiteStore.ListFiles: `WHERE backend_id = ?`, adding
`path LIKE pathPre || '%'` only when the path filter argument is nonempty,
LIMIT only when limit > 0 and OFFSET only when offset > 0 (SQL applies the
offset before the limit). The query has no ORDER BY clause, but SQLite
serves it through the composite index idx_backend_path (query plan:
SEARCH files USING INDEX idx_backend_path (backend_id=?)), so the rows come
back ordered by path ascending under BINARY collation, equal paths in rowid
order. -/
def listFiles (s : StoreState) (backendId pathPre : String) (limit offset : Int) :
    List File :=
  let q1 := s.files.filter (fun f => f.active && f.backendId == backendId)
  let q2 := if pathPre ≠ "" then q1.filter (fun f => likeMatch (pathPre ++ "%") f.path) else q1
  let q3 := sortByPath q2
  let q4 := if offset > 0 then q3.drop offset.toNat else q3
  if limit > 0 then q4.take limit.toNat else q4

/-- SQLiteStore.CreateTag: a plain INSERT. The tags table has no constraint
beyond the auto-increment primary key (foreign keys are not enforced), so
the insert always succeeds, whether or not an identical triple exists. -/
def createTag (s : StoreState) (fileId : Nat) (key value : String) : StoreState :=
  { s with
    tags := s.tags ++ [⟨s.nextTagId, fileId, key, value, none⟩],
    nextTagId := s.nextTagId + 1 }

/-- SQLiteStore.DeleteTag: gorm soft delete by primary key. -/
def deleteTag (s : StoreState) (now : Nat) (id : Nat) : StoreState :=
  { s with tags := s.tags.map (fun t =>
      if t.active && t.id == id then { t with deletedAt := some now } else t) }

/-- SQLiteStore.GetFilesByTag: SELECT files.* FROM files JOIN tags ON
tags.file_id = files.id WHERE tags.key = ? AND tags.value = ? AND
files.deleted_at IS NULL. gorm adds the soft-delete condition only for the
primary model (files), not for the string-joined tags table, and the query
has no DISTINCT, so the join yields one output row per matching tag row,
including soft-deleted tag rows. LIMIT/OFFSET as in ListFiles. -/
def getFilesByTag (s : StoreState) (key value : String) (limit offset : Int) :
    List File :=
  let rows := (s.files.filter File.active).flatMap (fun f =>
    (s.tags.filter (fun t => t.fileId == f.id && t.key == key && t.value == value)).map
      (fun _ => f))
  let q1 := if offset > 0 then rows.drop offset.toNat else rows
  if limit > 0 then q1.take limit.toNat else q1

/-- SQLiteStore.CreateFilter: INSERT with auto primary key; the unique index
on virtual_path spans soft-deleted rows, so the insert fails exactly when any
row with the same virtual path exists. -/
def createFilter (s : StoreState) (virtualPath name queryExpr descr : String) :
    Except GsErr StoreState :=
  if s.filters.any (fun r => r.virtualPath == virtualPath) then .error .uniqueViolation
  else .ok { s with
    filters := s.filters ++
      [⟨s.nextFilterId, virtualPath, name, queryExpr, descr, none⟩],
    nextFilterId := s.nextFilterId + 1 }

/-- SQLiteStore.GetFilter: `WHERE virtual_path = ?` plus the soft-delete
condition, then First; gorm.ErrRecordNotFound when no active row matches.
The comparison is SQL equality on the full string, not a prefix match. -/
def getFilter (s : StoreState) (virtualPath : String) : Except GsErr Filter :=
  match s.filters.find? (fun f => f.active && f.virtualPath == virtualPath) with
  | some f => .ok f
  | none => .error .notFound

/-! ### Backend registry and virtual path resolver

The registry and resolver have no compiled Go implementation in the
repository; they are modelled from the specification, guided by the
reference implementation embedded in docs/02 (isValidBackendID,
RegistryImpl.Register, RegistryImpl.ResolveVirtualPath). -/

/-- Modelled from the spec: the identifier charset of the Backend Registry —
alphanumeric ASCII, hyphen and underscore only. -/
def isAllowedIdChar (c : Char) : Bool :=
  ('a' ≤ c && c ≤ 'z') || ('A' ≤ c && c ≤ 'Z') || ('0' ≤ c && c ≤ '9')
    || c == '-' || c == '_'

/-- Modelled from the spec: the backend identifier check of the missing
Backend Registry (docs/02 isValidBackendID): nonempty, must not start with a
dot or a slash, and every character must be in the allowed charset. -/
def isValidBackendID (id : String) : Bool :=
  match id.data with
  | [] => false
  | c :: _ =>
    if c == '.' || c == '/' then false
    else id.data.all isAllowedIdChar

/-- Modelled from the spec: backend registration of the missing Backend
Registry (docs/02 RegistryImpl.Register): validate the identifier charset —
rejecting an illegal identifier with InvalidPath before anything is
persisted — then encrypt the credential pair with the external capability
`enc` and persist through the metadata store. -/
def register (enc : String → String) (s : StoreState) (b : Backend) :
    Except GsErr StoreState :=
  if !isValidBackendID b.id then .error .invalidPath
  else createBackend s { b with accessKey := enc b.accessKey, secretKey := enc b.secretKey }

/-- Split a character list at its first slash, if any (the carrier of Go's
strings.SplitN(path, "/", 2)). -/
def splitSlash : List Char → Option (List Char × List Char)
  | [] => none
  | c :: cs =>
    if c == '/' then some ([], cs)
    else
      match splitSlash cs with
      | none => none
      | some (a, b) => some (c :: a, b)

/-- First segment of a virtual path: everything before the first slash, or
the whole path when it has no slash. -/
def firstSegment (path : String) : String :=
  match splitSlash path.data with
  | none => path
  | some (a, _) => String.mk a

/-- Remainder of a virtual path after the first slash; empty when the path
has no slash. -/
def restSegment (path : String) : String :=
  match splitSlash path.data with
  | none => ""
  | some (_, b) => String.mk b

/-- Modelled from the spec: the missing Virtual Path Resolver on backend
paths (docs/02 RegistryImpl.ResolveVirtualPath): split the path at the first
slash, look the first segment up as a Backend identifier in the metadata
store, and return the backend with the (possibly empty) remainder as the
in-backend path; fail with NotFound when no backend matches. -/
def resolveVirtualPath (s : StoreState) (path : String) :
    Except GsErr (Backend × String) :=
  match getBackend s (firstSegment path) with
  | .error _ => .error .notFound
  | .ok b => .ok (b, restSegment path)

/-! ### Migration runner (pkg/db/migrations/migrations.go) -/

/-- Migration (migrations.go): version, description, and the Up/Down steps.
The database a step acts on is abstracted as a value of type δ; a step may
fail. -/
structure Migration (δ : Type) where
  version : Int
  description : String
  up : δ → Except String δ
  down : δ → Except String δ

/-- Row of the migration_histories table: `Version` has a unique index. The
ID and AppliedAt columns are never queried and are omitted. -/
structure HistoryEntry where
  version : Int
  description : String
deriving Repr, DecidableEq

/-- State of a migrator run: the abstract database plus the history table. -/
structure MigState (δ : Type) where
  db : δ
  history : List HistoryEntry

/-- History record written for a migration. -/
def recOf {δ : Type} (m : Migration δ) : HistoryEntry := ⟨m.version, m.description⟩

/-- Migrator.runMigration: one transaction that runs Up and then inserts the
history record; if either step fails the transaction is rolled back, so the
caller's state is unchanged (the insert can fail only on the unique index on
Version). -/
def runMigration {δ : Type} (m : Migration δ) (st : MigState δ) :
    Except String (MigState δ) :=
  match m.up st.db with
  | .error e => .error e
  | .ok db' =>
    if st.history.any (fun h => h.version == m.version) then
      .error "UNIQUE constraint failed: migration_histories.version"
    else .ok ⟨db', st.history ++ [recOf m]⟩

/-- Loop of Migrator.Migrate: `applied` is the version set read from the
history table once, before the loop; migrations already recorded are
skipped, pending ones run in list order, and the first failure stops the run
(returning the state committed so far together with the error). -/
def migrateLoop {δ : Type} (applied : Int → Bool) :
    List (Migration δ) → MigState δ → MigState δ × Option String
  | [], st => (st, none)
  | m :: ms, st =>
    if applied m.version then migrateLoop applied ms st
    else
      match runMigration m st with
      | .error e => (st, some e)
      | .ok st' => migrateLoop applied ms st'

/-- Migrator.Migrate: ensure the history table exists (a schema no-op here),
read the applied versions, then run all pending migrations. -/
def migrate {δ : Type} (ms : List (Migration δ)) (st : MigState δ) :
    MigState δ × Option String :=
  migrateLoop (fun v => st.history.any (fun h => h.version == v)) ms st

/-- Migrations of a run that are not yet recorded in a given history. -/
def pendingOf {δ : Type} (ms : List (Migration δ)) (h : List HistoryEntry) :
    List (Migration δ) :=
  ms.filter (fun m => !h.any (fun r => r.version == m.version))

/-- Sequential composition of the Up steps of a migration list. -/
def foldUps {δ : Type} : List (Migration δ) → δ → Except String δ
  | [], d => .ok d
  | m :: ms, d =>
    match m.up d with
    | .error e => .error e
    | .ok d' => foldUps ms d'

/-! ### Concrete store states used by witnesses and counterexamples -/

/-- Registered backend row used by the concrete scenarios. -/
def backendRowB : Backend := ⟨"b", "backend", "ep", "rg", "bk", true, "ak", "sk", none⟩

/-- Store with the single registered backend `b` and nothing else. -/
def storeB : StoreState := ⟨[backendRowB], [], [], [], 1, 1, 1⟩

/-- Store with backend `b` and one file `p` in it (created via CreateFile,
receiving id 1). -/
def storeBF : StoreState := createFile storeB "b" "p" 0 "" "" "" 0

/-! ### Claim theorems -/

/-- C1, counterexample: CreateTag is not idempotent on exact triples. After
adding the identical (file 1, colour, red) triple twice with CreateTag, the
store holds two active tag rows for the triple, not one — the second call
inserted a duplicate row. -/
theorem c1_createTag_twice_leaves_two_rows :
    (((createTag (createTag storeBF 1 "colour" "red") 1 "colour" "red").tags.filter
        (fun t => t.active && t.fileId == 1 && t.key == "colour" && t.value == "red")).length = 2)
    ∧ ¬ (((createTag (createTag storeBF 1 "colour" "red") 1 "colour" "red").tags.filter
        (fun t => t.active && t.fileId == 1 && t.key == "colour" && t.value == "red")).length = 1) := by
  decide

/-- Number of active tag rows of a store carrying an exact
(file, key, value) triple. -/
def activeTagCount (s : StoreState) (fid : Nat) (k v : String) : Nat :=
  (s.tags.filter (fun t => t.active && t.fileId == fid && t.key == k && t.value == v)).length

/-- C1, amended: CreateTag unconditionally inserts a fresh active row, so
re-adding an identical (file, key, value) triple is not a no-op — every call
adds one more active row for the triple, and two identical calls leave two
more rows than before, the duplicates distinguished only by their
auto-assigned primary keys. -/
theorem c1_createTag_inserts_duplicate_row (s : StoreState) (fid : Nat) (k v : String) :
    activeTagCount (createTag (createTag s fid k v) fid k v) fid k v
      = activeTagCount s fid k v + 2 := by
  simp [activeTagCount, createTag, List.filter_append, Tag.active]

/-- C2: the store does not preserve uniqueness of (BackendID, Path). Starting
from a store holding backend `b` and the file (b, p), CreateFile of a second
file with the same (b, p) succeeds — the files table has only the non-unique
index idx_backend_path — leaving two distinct active File rows (ids 1 and 2)
with the identical (BackendID, Path), where the claim expects the second
creation to fail. -/
theorem c2_createFile_allows_duplicate_backend_path :
    ((createFile storeBF "b" "p" 0 "" "" "" 0).files.filter
        (fun f => f.active && f.backendId == "b" && f.path == "p")).map (fun f => f.id)
      = [1, 2] := by
  decide

/-- Active files of a backend whose path matches the LIKE pattern built from
a path filter argument (everything matches when the argument is empty, since
ListFiles then omits the LIKE clause). -/
def matchingFiles (s : StoreState) (backendId pathPre : String) : List File :=
  s.files.filter (fun f => f.active && f.backendId == backendId
    && (pathPre == "" || likeMatch (pathPre ++ "%") f.path))

/-- SQL pagination window: OFFSET applied when positive, then LIMIT applied
when positive. -/
def sqlWindow (limit offset : Int) (l : List File) : List File :=
  let q := if offset > 0 then l.drop offset.toNat else l
  if limit > 0 then q.take limit.toNat else q

/-- ListFiles computes the pagination window of the path-ascending sort of
the combined row filter. -/
theorem listFiles_eq_window (s : StoreState) (b q : String) (l o : Int) :
    listFiles s b q l o = sqlWindow l o (sortByPath (matchingFiles s b q)) := by
  by_cases hq : q = ""
  · subst hq
    unfold listFiles sqlWindow matchingFiles
    simp
  · have hb : (q == "") = false := beq_eq_false_iff_ne.mpr hq
    unfold listFiles sqlWindow matchingFiles
    simp only [if_pos (show q ≠ "" from hq), List.filter_filter]
    have hpred : (fun f => likeMatch (q ++ "%") f.path && (f.active && f.backendId == b))
        = (fun f : File => f.active && f.backendId == b
            && ((q == "") || likeMatch (q ++ "%") f.path)) := by
      funext f
      rw [hb]
      cases File.active f <;> cases f.backendId == b
        <;> cases likeMatch (q ++ "%") f.path <;> rfl
    rw [hpred]

/-- C3, counterexample: the path condition of ListFiles is SQL LIKE on the
pattern Q·"%", which by SQLite's default is ASCII-case-insensitive (and
interprets wildcards in Q), not a literal "starts with Q" test. With backend
b holding the single file Apple.jpg, ListFiles(b, "apple", 0, 0) returns
that file although "Apple.jpg" does not start with "apple" — the claim
requires the empty result here. -/
theorem c3_like_matches_beyond_literal :
    ((listFiles (createFile storeB "b" "Apple.jpg" 0 "" "" "" 0) "b" "apple" 0 0).map
        (fun f => f.path) = ["Apple.jpg"])
    ∧ List.isPrefixOf "apple".data "Apple.jpg".data = false := by
  decide

/-- C3, amended: for every backend B, path filter Q and limit L and offset O,
ListFiles(B, Q, L, O) returns exactly the active files of backend B whose
path matches the SQLite LIKE pattern Q·"%" — ASCII-case-insensitively, with
%/_ wildcards in Q interpreted, which differs from a literal "starts with Q"
test; all files of B when Q is empty — ordered by path ascending (the query
is served by the composite index idx_backend_path; equal paths keep rowid
order), with the offset applied when positive and then the limit when
positive, i.e. the result equals the [O, O+L) window of the full
path-ascending LIKE listing. -/
theorem c3_listFiles_like_window_path_ascending (s : StoreState) (b q : String) (l o : Int) :
    listFiles s b q l o = sqlWindow l o (sortByPath (matchingFiles s b q)) :=
  listFiles_eq_window s b q l o

/-- C10: non-positive pagination parameters disable paging. With limit ≤ 0 no
limit is applied (all matching rows, windowed only by the offset); with
offset ≤ 0 no offset is applied (the result starts at the first row); with
both non-positive the full path-ascending matching list is returned; and
ListFiles(B, "", 0, 0) returns every active file of backend B. -/
theorem c10_nonpositive_paging_disabled (s : StoreState) (b q : String) (l o : Int) :
    (l ≤ 0 → listFiles s b q l o
        = (if o > 0 then (sortByPath (matchingFiles s b q)).drop o.toNat
           else sortByPath (matchingFiles s b q))) ∧
    (o ≤ 0 → listFiles s b q l o
        = (if l > 0 then (sortByPath (matchingFiles s b q)).take l.toNat
           else sortByPath (matchingFiles s b q))) ∧
    (l ≤ 0 → o ≤ 0 → listFiles s b q l o = sortByPath (matchingFiles s b q)) ∧
    listFiles s b "" 0 0
      = sortByPath (s.files.filter (fun f => f.active && f.backendId == b)) := by
  have hw := listFiles_eq_window s b q l o
  have hmf : matchingFiles s b "" = s.files.filter (fun f => f.active && f.backendId == b) := by
    unfold matchingFiles
    congr 1
    funext f
    simp
  refine ⟨?_, ?_, ?_, ?_⟩
  · intro hl
    rw [hw]
    unfold sqlWindow
    simp only [if_neg (show ¬ l > 0 by omega)]
  · intro ho
    rw [hw]
    unfold sqlWindow
    simp only [if_neg (show ¬ o > 0 by omega)]
  · intro hl ho
    rw [hw]
    unfold sqlWindow
    simp only [if_neg (show ¬ l > 0 by omega), if_neg (show ¬ o > 0 by omega)]
  · rw [listFiles_eq_window s b "" 0 0, hmf]
    unfold sqlWindow
    simp

/-- C10, witness: at backend `b` of the one-file store with limit and offset
both -1, ListFiles returns the full (path-sorted) matching list. -/
theorem c10_witness :
    ((-1 : Int) ≤ 0)
    ∧ listFiles storeBF "b" "" (-1) (-1) = sortByPath (matchingFiles storeBF "b" "") :=
  ⟨by decide, (c10_nonpositive_paging_disabled storeBF "b" "" (-1) (-1)).2.2.1
    (by decide) (by decide)⟩

/-- String contains a given character. -/
def containsChar (s : String) (c : Char) : Bool := s.data.any (fun x => x == c)

/-- String starts with a dot. -/
def startsWithDot (s : String) : Bool :=
  match s.data with
  | [] => false
  | c :: _ => c == '.'

/-- String contains a character outside the backend identifier charset. -/
def hasIllegalIdChar (s : String) : Bool := s.data.any (fun c => !isAllowedIdChar c)

/-- Identifier validation fails on a slash, a leading dot, or any character
outside the charset. -/
theorem isValidBackendID_eq_false (id : String)
    (h : containsChar id '/' = true ∨ startsWithDot id = true ∨ hasIllegalIdChar id = true) :
    isValidBackendID id = false := by
  unfold isValidBackendID
  cases hid : id.data with
  | nil =>
    exfalso
    rcases h with h | h | h
    · unfold containsChar at h
      rw [hid] at h
      simp at h
    · unfold startsWithDot at h
      rw [hid] at h
      simp at h
    · unfold hasIllegalIdChar at h
      rw [hid] at h
      simp at h
  | cons c rest =>
    show (if (c == '.' || c == '/') = true then false else (c :: rest).all isAllowedIdChar)
      = false
    by_cases hc : (c == '.' || c == '/') = true
    · rw [if_pos hc]
    · rw [if_neg hc]
      have hbad : ∃ x ∈ id.data, isAllowedIdChar x = false := by
        rcases h with h | h | h
        · unfold containsChar at h
          obtain ⟨x, hx, hxe⟩ := List.any_eq_true.mp h
          obtain rfl := eq_of_beq hxe
          exact ⟨'/', hx, by decide⟩
        · unfold startsWithDot at h
          rw [hid] at h
          obtain rfl := eq_of_beq h
          exact absurd (by decide) hc
        · unfold hasIllegalIdChar at h
          obtain ⟨x, hx, hxe⟩ := List.any_eq_true.mp h
          exact ⟨x, hx, by simpa using hxe⟩
      obtain ⟨x, hx, hxf⟩ := hbad
      cases hall : (c :: rest).all isAllowedIdChar with
      | false => rfl
      | true =>
        exact absurd (List.all_eq_true.mp hall x (hid ▸ hx)) (by simp [hxf])

/-- C4: backend registration rejects illegal identifiers. For every backend
whose ID contains a slash, starts with a dot, or contains a character
outside [A-Za-z0-9_-], register fails with InvalidPath; the validation runs
before the store insert, so no backend row is persisted (the state is not
extended — the operation yields only the error). -/
theorem c4_register_rejects_illegal_id (enc : String → String) (s : StoreState) (b : Backend)
    (h : containsChar b.id '/' = true ∨ startsWithDot b.id = true
      ∨ hasIllegalIdChar b.id = true) :
    register enc s b = .error .invalidPath := by
  unfold register
  rw [isValidBackendID_eq_false b.id h]
  rfl

/-- C4, witness: registering a backend with the id bad/id fails with
InvalidPath. -/
theorem c4_witness :
    containsChar "bad/id" '/' = true
    ∧ register (fun x => x) storeB ⟨"bad/id", "n", "e", "r", "bk", true, "a", "s", none⟩
        = .error .invalidPath :=
  ⟨by decide, c4_register_rejects_illegal_id (fun x => x) storeB
    ⟨"bad/id", "n", "e", "r", "bk", true, "a", "s", none⟩ (Or.inl (by decide))⟩

/-- Splitting at the first slash of a list that is a slash-free part followed
by a slash and a remainder recovers exactly the two parts. -/
theorem splitSlash_append (a p : List Char) (ha : ∀ c ∈ a, (c == '/') = false) :
    splitSlash (a ++ '/' :: p) = some (a, p) := by
  induction a with
  | nil => simp [splitSlash]
  | cons c cs ih =>
    have hc : (c == '/') = false := ha c (by simp)
    have ihr := ih (fun x hx => ha x (by simp [hx]))
    simp only [List.cons_append, splitSlash, hc, Bool.false_eq_true, if_false,
      List.append_eq, ihr]

/-- Characters of a valid backend identifier are never slashes. -/
theorem valid_id_no_slash (id : String) (hv : isValidBackendID id = true) :
    ∀ c ∈ id.data, (c == '/') = false := by
  intro c hc
  unfold isValidBackendID at hv
  cases hid : id.data with
  | nil =>
    rw [hid] at hc
    simp at hc
  | cons d rest =>
    rw [hid] at hv
    rw [show (match d :: rest with
        | [] => false
        | c :: _ => if (c == '.' || c == '/') = true then false
            else (d :: rest).all isAllowedIdChar)
      = (if (d == '.' || d == '/') = true then false
            else (d :: rest).all isAllowedIdChar) from rfl] at hv
    by_cases hd : (d == '.' || d == '/') = true
    · rw [if_pos hd] at hv
      exact absurd hv (by simp)
    · rw [if_neg hd] at hv
      have hall := List.all_eq_true.mp hv c (hid ▸ hc)
      cases hcc : (c == '/') with
      | false => rfl
      | true =>
        obtain rfl := eq_of_beq hcc
        exact absurd hall (by decide)

/-- C5: resolution of backend paths. For a backend row reachable through
GetBackend under a valid identifier, resolving id ++ "/" ++ p yields exactly
that backend paired with the in-backend path p; and for any path whose first
segment is not a registered backend, resolution fails with NotFound. -/
theorem c5_resolveVirtualPath (s : StoreState) (b : Backend) (p path : String) :
    (getBackend s b.id = .ok b → isValidBackendID b.id = true →
        resolveVirtualPath s (b.id ++ "/" ++ p) = .ok (b, p))
    ∧ (getBackend s (firstSegment path) = .error .notFound →
        resolveVirtualPath s path = .error .notFound) := by
  constructor
  · intro hb hv
    have hdata : (b.id ++ "/" ++ p).data = b.id.data ++ '/' :: p.data := by
      simp [String.data_append]
    have hsplit := splitSlash_append b.id.data p.data (valid_id_no_slash b.id hv)
    have h1 : firstSegment (b.id ++ "/" ++ p) = b.id := by
      unfold firstSegment
      rw [hdata, hsplit]
    have h2 : restSegment (b.id ++ "/" ++ p) = p := by
      unfold restSegment
      rw [hdata, hsplit]
    unfold resolveVirtualPath
    rw [h1, h2, hb]
  · intro h
    unfold resolveVirtualPath
    rw [h]

/-- C5, witness: in the store holding backend b, resolving b/x/y.jpg yields
backend b with in-backend path x/y.jpg, and resolving nosuch/z fails with
NotFound. -/
theorem c5_witness :
    (getBackend storeB "b" = .ok backendRowB ∧ isValidBackendID "b" = true
      ∧ getBackend storeB (firstSegment "nosuch/z") = .error .notFound)
    ∧ resolveVirtualPath storeB ("b" ++ "/" ++ "x/y.jpg") = .ok (backendRowB, "x/y.jpg")
    ∧ resolveVirtualPath storeB "nosuch/z" = .error .notFound :=
  ⟨⟨rfl, by decide, rfl⟩,
   (c5_resolveVirtualPath storeB backendRowB "x/y.jpg" "nosuch/z").1 rfl (by decide),
   (c5_resolveVirtualPath storeB backendRowB "x/y.jpg" "nosuch/z").2 rfl⟩

/-- C6: GetFilter looks filters up by exact equality on the full virtual
path. Whatever it returns is an active stored filter whose VirtualPath
equals the queried string exactly; whenever an active filter with that
exact VirtualPath exists, it returns one; and when no active filter's
VirtualPath equals the queried string — in particular when stored virtual
paths are only proper prefixes of it — it fails with NotFound. -/
theorem c6_getFilter_exact_match (s : StoreState) (v : String) :
    (∀ f, getFilter s v = .ok f → f ∈ s.filters ∧ f.active = true ∧ f.virtualPath = v)
    ∧ ((∃ f ∈ s.filters, f.active = true ∧ f.virtualPath = v) →
        ∃ f, getFilter s v = .ok f ∧ f.active = true ∧ f.virtualPath = v)
    ∧ ((∀ f ∈ s.filters, f.active = true → f.virtualPath ≠ v) →
        getFilter s v = .error .notFound) := by
  refine ⟨?_, ?_, ?_⟩
  · intro f h
    unfold getFilter at h
    cases hf : s.filters.find? (fun g => g.active && g.virtualPath == v) with
    | none =>
      rw [hf] at h
      exact absurd h (by simp)
    | some g =>
      rw [hf] at h
      injection h with h
      subst h
      have hp := List.find?_some hf
      have hmem := List.mem_of_find?_eq_some hf
      rw [Bool.and_eq_true] at hp
      exact ⟨hmem, hp.1, eq_of_beq hp.2⟩
  · intro ⟨f, hmem, hact, hvp⟩
    have hsome : (s.filters.find? (fun g => g.active && g.virtualPath == v)).isSome := by
      rw [List.find?_isSome]
      exact ⟨f, hmem, by rw [Bool.and_eq_true]; exact ⟨hact, beq_iff_eq.mpr hvp⟩⟩
    cases hf : s.filters.find? (fun g => g.active && g.virtualPath == v) with
    | none => rw [hf] at hsome; simp at hsome
    | some g =>
      have hp := List.find?_some hf
      rw [Bool.and_eq_true] at hp
      refine ⟨g, ?_, hp.1, eq_of_beq hp.2⟩
      unfold getFilter
      rw [hf]
  · intro h
    unfold getFilter
    have hnone : s.filters.find? (fun g => g.active && g.virtualPath == v) = none := by
      rw [List.find?_eq_none]
      intro g hg
      simp only [Bool.and_eq_true, beq_iff_eq, not_and]
      exact fun hact => h g hg hact
    rw [hnone]

/-- Filter row used by the C6 witness. -/
def filterRowRed : Filter := ⟨1, "filters/pictures/red", "red", "tag:colour=red", "", none⟩

/-- Store holding exactly the filter filters/pictures/red. -/
def storeFil : StoreState := ⟨[], [], [], [filterRowRed], 1, 1, 2⟩

/-- C6, witness: the exact virtual path filters/pictures/red is found, while
the shorter string filters/pictures is not. -/
theorem c6_witness :
    (∃ f ∈ storeFil.filters, f.active = true ∧ f.virtualPath = "filters/pictures/red")
    ∧ (∃ f, getFilter storeFil "filters/pictures/red" = .ok f ∧ f.active = true
        ∧ f.virtualPath = "filters/pictures/red")
    ∧ getFilter storeFil "filters/pictures" = .error .notFound :=
  ⟨⟨filterRowRed, by decide, by decide, by decide⟩,
   (c6_getFilter_exact_match storeFil "filters/pictures/red").2.1
     ⟨filterRowRed, by decide, by decide, by decide⟩,
   (c6_getFilter_exact_match storeFil "filters/pictures").2.2 (by decide)⟩

/-- After the soft-delete update of DeleteBackend, no row with the deleted id
is active any more. -/
theorem find?_after_deleteBackend (l : List Backend) (now : Nat) (id : String) :
    (l.map (fun b => if b.active && b.id == id then { b with deletedAt := some now } else b)).find?
      (fun b => b.active && b.id == id) = none := by
  induction l with
  | nil => rfl
  | cons b bs ih =>
    simp only [List.map_cons]
    by_cases hb : (b.active && b.id == id) = true
    · rw [if_pos hb, List.find?_cons_of_neg, ih]
      simp [Backend.active]
    · rw [if_neg hb, List.find?_cons_of_neg, ih]
      simp only [hb, Bool.false_eq_true, not_false_eq_true]

/-- C7, counterexample: DeleteBackend does not cascade into the files table.
In the store holding backend b with its file p, deleting backend b leaves
the file in the active view: ListFiles(b) still returns [p] where the claim
requires the empty list. -/
theorem c7_files_survive_backend_delete :
    ((listFiles (deleteBackend storeBF 5 "b") "b" "" 0 0).map (fun f => f.path) = ["p"])
    ∧ (["p"] : List String) ≠ [] := by
  decide

/-- C7, amended: DeleteBackend soft-deletes only the backend row. Afterwards
GetBackend on that id fails with not-found and every other backend row is
untouched, but the files, tags and filters tables are byte-for-byte
unchanged — in particular GetFile and ListFiles answer exactly as before the
delete, so the backend's files are NOT removed from the active view (that
requires the separate DeleteFilesByBackend operation). -/
theorem c7_deleteBackend_soft_deletes_only_backend_row (s : StoreState) (now : Nat)
    (id bq pq p : String) (l o : Int) :
    (deleteBackend s now id).files = s.files
    ∧ (deleteBackend s now id).tags = s.tags
    ∧ (deleteBackend s now id).filters = s.filters
    ∧ getBackend (deleteBackend s now id) id = .error .notFound
    ∧ listFiles (deleteBackend s now id) bq pq l o = listFiles s bq pq l o
    ∧ getFile (deleteBackend s now id) bq p = getFile s bq p
    ∧ (∀ b ∈ s.backends, b.id ≠ id → b ∈ (deleteBackend s now id).backends) := by
  refine ⟨rfl, rfl, rfl, ?_, rfl, rfl, ?_⟩
  · unfold getBackend deleteBackend
    rw [find?_after_deleteBackend]
  · intro b hb hne
    have hcond : (b.active && b.id == id) = false := by
      have : (b.id == id) = false := beq_eq_false_iff_ne.mpr hne
      simp [this]
    unfold deleteBackend
    have hmem := List.mem_map_of_mem
      (fun x => if x.active && x.id == id then { x with deletedAt := some now } else x) hb
    have hfix : (fun x => if x.active && x.id == id then { x with deletedAt := some now } else x) b
        = b := by
      show (if (b.active && b.id == id) = true then { b with deletedAt := some now } else b) = b
      rw [if_neg (by simp [hcond])]
    rw [hfix] at hmem
    exact hmem

/-- Second backend row used by the C7 witness. -/
def backendRowC : Backend := ⟨"c", "other", "ep", "rg", "bk", true, "ak", "sk", none⟩

/-- Store holding the two backends b and c. -/
def storeB2 : StoreState := ⟨[backendRowB, backendRowC], [], [], [], 1, 1, 1⟩

/-- C7, witness: deleting backend b of the two-backend store makes
GetBackend(b) fail with not-found while backend c's row survives. -/
theorem c7_witness :
    (backendRowC ∈ storeB2.backends ∧ backendRowC.id ≠ "b")
    ∧ getBackend (deleteBackend storeB2 5 "b") "b" = .error .notFound
    ∧ backendRowC ∈ (deleteBackend storeB2 5 "b").backends :=
  ⟨⟨by decide, by decide⟩,
   (c7_deleteBackend_soft_deletes_only_backend_row storeB2 5 "b" "b" "" "p" 0 0).2.2.2.1,
   (c7_deleteBackend_soft_deletes_only_backend_row storeB2 5 "b" "b" "" "p" 0 0).2.2.2.2.2.2
     backendRowC (by decide) (by decide)⟩

/-- C8: reverse tag lookup is not exact. First, GetFilesByTag joins the files
table with ALL tag rows matching (key, value), including soft-deleted ones:
after the file p's only (colour, red) tag is removed with DeleteTag, the
file is still returned, where the claim requires it to be absent. Second,
without DISTINCT a file appears once per matching tag row: with the triple
(1, colour, red) inserted twice, the file is returned twice, where the claim
requires each file to appear exactly once. -/
theorem c8_getFilesByTag_not_exact :
    ((getFilesByTag (deleteTag (createTag storeBF 1 "colour" "red") 7 1) "colour" "red" 0 0).map
        (fun f => f.path) = ["p"])
    ∧ ((getFilesByTag (createTag (createTag storeBF 1 "colour" "red") 1 "colour" "red")
        "colour" "red" 0 0).map (fun f => f.path) = ["p", "p"]) := by
  decide

/-- Destructing a successful runMigration: the Up step succeeded on the
incoming database and exactly one history record — the migration's own — was
appended. -/
theorem runMigration_ok {δ : Type} {m : Migration δ} {st st' : MigState δ}
    (h : runMigration m st = .ok st') :
    m.up st.db = .ok st'.db ∧ st'.history = st.history ++ [recOf m] := by
  unfold runMigration at h
  split at h
  next e hup => exact absurd h (by simp)
  next d hup =>
    split at h
    next hh => exact absurd h (by simp)
    next hh =>
      injection h with h
      subst h
      exact ⟨hup, rfl⟩

/-- Successful loop runs: the history is extended by exactly the records of
the pending migrations, in list order, and the database is the sequential
application of their Up steps. -/
theorem migrateLoop_none {δ : Type} (applied : Int → Bool) :
    ∀ (ms : List (Migration δ)) (st st' : MigState δ),
      migrateLoop applied ms st = (st', none) →
        st'.history = st.history ++ (ms.filter (fun m => !applied m.version)).map recOf
          ∧ foldUps (ms.filter (fun m => !applied m.version)) st.db = .ok st'.db := by
  intro ms
  induction ms with
  | nil =>
    intro st st' h
    unfold migrateLoop at h
    injection h with h1 h2
    subst h1
    exact ⟨by simp, rfl⟩
  | cons m ms ih =>
    intro st st' h
    by_cases ha : applied m.version = true
    · unfold migrateLoop at h
      rw [if_pos ha] at h
      have hres := ih st st' h
      rwa [List.filter_cons_of_neg (by simp [ha])]
    · cases hrun : runMigration m st with
      | error e0 =>
        unfold migrateLoop at h
        rw [if_neg ha, hrun] at h
        injection h with h1 h2
        exact absurd h2 (by simp)
      | ok st1 =>
        unfold migrateLoop at h
        rw [if_neg ha, hrun] at h
        obtain ⟨hh, hdb⟩ := ih st1 st' h
        obtain ⟨hup, hhist⟩ := runMigration_ok hrun
        have hfc : (m :: ms).filter (fun m => !applied m.version)
            = m :: ms.filter (fun m => !applied m.version) :=
          List.filter_cons_of_pos (by simp [ha])
        rw [hfc]
        constructor
        · rw [hh, hhist, List.map_cons, List.append_assoc]
          rfl
        · unfold foldUps
          rw [hup]
          exact hdb

/-- Failed loop runs: the pending list splits into a fully applied part, the
failing migration, and the unprocessed tail; only the applied part was
recorded and committed, and the failing migration errors on the returned
state (its own transaction left no record and no database change). -/
theorem migrateLoop_some {δ : Type} (applied : Int → Bool) :
    ∀ (ms : List (Migration δ)) (st st' : MigState δ) (e : String),
      migrateLoop applied ms st = (st', some e) →
        ∃ done mf rest,
          ms.filter (fun m => !applied m.version) = done ++ mf :: rest
            ∧ st'.history = st.history ++ done.map recOf
            ∧ foldUps done st.db = .ok st'.db
            ∧ runMigration mf st' = .error e := by
  intro ms
  induction ms with
  | nil =>
    intro st st' e h
    unfold migrateLoop at h
    injection h with h1 h2
    exact absurd h2 (by simp)
  | cons m ms ih =>
    intro st st' e h
    by_cases ha : applied m.version = true
    · unfold migrateLoop at h
      rw [if_pos ha] at h
      obtain ⟨done, mf, rest, h1, h2, h3, h4⟩ := ih st st' e h
      exact ⟨done, mf, rest, by rw [List.filter_cons_of_neg (by simp [ha]), h1], h2, h3, h4⟩
    · cases hrun : runMigration m st with
      | error e0 =>
        unfold migrateLoop at h
        rw [if_neg ha, hrun] at h
        injection h with h1 h2
        injection h2 with h2
        subst h1
        subst h2
        refine ⟨[], m, ms.filter (fun m => !applied m.version),
          List.filter_cons_of_pos (by simp [ha]), by simp, rfl, hrun⟩
      | ok st1 =>
        unfold migrateLoop at h
        rw [if_neg ha, hrun] at h
        obtain ⟨done, mf, rest, h1, h2, h3, h4⟩ := ih st1 st' e h
        obtain ⟨hup, hhist⟩ := runMigration_ok hrun
        refine ⟨m :: done, mf, rest, ?_, ?_, ?_, h4⟩
        · rw [List.filter_cons_of_pos (by simp [ha]), h1]
          rfl
        · rw [h2, hhist, List.map_cons, List.append_assoc]
          rfl
        · unfold foldUps
          rw [hup]
          exact h3

/-- A loop whose migrations are all recorded applies nothing. -/
theorem migrateLoop_all_applied {δ : Type} (applied : Int → Bool) :
    ∀ (ms : List (Migration δ)) (st : MigState δ),
      (∀ m ∈ ms, applied m.version = true) →
      migrateLoop applied ms st = (st, none) := by
  intro ms
  induction ms with
  | nil =>
    intro st _
    rfl
  | cons m ms ih =>
    intro st h
    unfold migrateLoop
    rw [if_pos (h m (List.mem_cons_self m ms))]
    exact ih st (fun x hx => h x (List.mem_cons_of_mem m hx))

/-- C9: the migration ledger is forward-only and records each migration
exactly once. On a successful run, Migrate applies, in list order, exactly
the migrations whose version is not yet recorded: the history gains exactly
their records and the database is the sequential application of their Up
steps; a second run then applies nothing new (it returns the same state with
no error). On a failed run, the pending list splits into an applied part —
the only part recorded and committed — the failing migration, and the
untouched tail; the failing migration's transaction leaves no history record.
And a failing Up step makes its runMigration transaction fail, rolling back
so that the caller's state is unchanged. -/
theorem c9_migrate_forward_only_ledger {δ : Type} (ms : List (Migration δ)) (st : MigState δ) :
    (∀ st', migrate ms st = (st', none) →
        st'.history = st.history ++ (pendingOf ms st.history).map recOf
          ∧ foldUps (pendingOf ms st.history) st.db = .ok st'.db
          ∧ migrate ms st' = (st', none))
    ∧ (∀ st' e, migrate ms st = (st', some e) →
        ∃ done mf rest,
          pendingOf ms st.history = done ++ mf :: rest
            ∧ st'.history = st.history ++ done.map recOf
            ∧ foldUps done st.db = .ok st'.db
            ∧ runMigration mf st' = .error e)
    ∧ (∀ (m : Migration δ) (st0 : MigState δ) (e : String),
        m.up st0.db = .error e → runMigration m st0 = .error e) := by
  refine ⟨?_, ?_, ?_⟩
  · intro st' h
    obtain ⟨hh, hdb⟩ := migrateLoop_none (fun v => st.history.any (fun r => r.version == v))
      ms st st' h
    have hh' : st'.history = st.history ++ (pendingOf ms st.history).map recOf := hh
    have hdb' : foldUps (pendingOf ms st.history) st.db = .ok st'.db := hdb
    refine ⟨hh', hdb', ?_⟩
    unfold migrate
    apply migrateLoop_all_applied
    intro m hm
    show st'.history.any (fun r => r.version == m.version) = true
    rw [hh', List.any_append]
    by_cases hap : st.history.any (fun r => r.version == m.version) = true
    · rw [hap]
      rfl
    · have hap' : st.history.any (fun r => r.version == m.version) = false := by
        simpa using hap
      have hmp : m ∈ pendingOf ms st.history := by
        unfold pendingOf
        exact List.mem_filter.mpr ⟨hm, by simp [hap']⟩
      have hany : ((pendingOf ms st.history).map recOf).any
          (fun r => r.version == m.version) = true := by
        rw [List.any_eq_true]
        exact ⟨recOf m, List.mem_map_of_mem recOf hmp, by simp [recOf]⟩
      rw [hany]
      simp
  · intro st' e h
    obtain ⟨done, mf, rest, h1, h2, h3, h4⟩ :=
      migrateLoop_some (fun v => st.history.any (fun r => r.version == v)) ms st st' e h
    exact ⟨done, mf, rest, h1, h2, h3, h4⟩
  · intro m st0 e h
    unfold runMigration
    rw [h]

/-- Single migration used by the C9 witness, mirroring the shape of the
repository's version-1 migration. -/
def migInit : Migration Nat :=
  ⟨1, "Initial schema creation", fun n => .ok (n + 1), fun n => .ok (n - 1)⟩

/-- C9, witness: a run from the empty ledger applies version 1, records it
once, and a second run applies nothing new. -/
theorem c9_witness :
    migrate [migInit] (⟨0, []⟩ : MigState Nat)
        = (⟨1, [⟨1, "Initial schema creation"⟩]⟩, none)
    ∧ migrate [migInit] (⟨1, [⟨1, "Initial schema creation"⟩]⟩ : MigState Nat)
        = (⟨1, [⟨1, "Initial schema creation"⟩]⟩, none) :=
  ⟨rfl, ((c9_migrate_forward_only_ledger [migInit] ⟨0, []⟩).1
    ⟨1, [⟨1, "Initial schema creation"⟩]⟩ rfl).2.2⟩

end GoSync
